import Mathlib

/-!
Verification of the neural style-transfer script `style_transfer.py`.

The development shallowly embeds the script's two halves:

* the *structural* half (`get_model_and_losses`: walking the pretrained
  VGG19 layer list, canonical renaming, probe insertion, truncation on
  reaching the expected probe count, and the `while steps <= 5000`
  optimization loop skeleton) is embedded as computable Lean functions
  over an inductive layer type;

* the *numeric* half (the `gram` matrix, the cosine-similarity based
  `ContentLoss.forward` / `StyleLoss.forward`) is embedded over `ℝ`,
  with PyTorch's `torch.cosine_similarity` modelled as
  `dot u v / (√(dot u u) * √(dot v v))`; real-number division by zero
  is `0` in Lean, which matches the eps-clamped near-zero behaviour of
  the float kernel in the degenerate case.

Tensor values flowing through the frozen convolutional layers are not
needed by any structural claim, so layer entries and probes are
represented by value-free markers; the numeric claims are settled on
the loss formulas themselves, applied to arbitrary real tensors.
-/

namespace StyleTransfer

/-! ## Structural model of `get_model_and_losses` -/

/-- The layer kinds the assembler distinguishes with `isinstance`:
`torch.nn.Conv2d`, `torch.nn.ReLU` (carrying its `inplace` flag),
`torch.nn.MaxPool2d`, `torch.nn.BatchNorm2d`, and any other class
(identified by its class name, used in the error message). -/
inductive VLayer where
  | conv2d : VLayer
  | relu (inplace : Bool) : VLayer
  | maxPool2d : VLayer
  | batchNorm2d : VLayer
  | other (className : String) : VLayer
  deriving DecidableEq, Repr

/-- Entries of the assembled `torch.nn.Sequential` model: the initial
`Normalization` module, the (possibly renamed/replaced) source layers,
and the two probe kinds.  A `ContentLoss`/`StyleLoss` probe is built
from `model(content_img)` / `model(style_img)` at its insertion point;
the captured target values play no role in the structural claims, so
probes are value-free markers. -/
inductive MEntry where
  | normalization : MEntry
  | layerE (l : VLayer) : MEntry
  | contentProbe : MEntry
  | styleProbe : MEntry
  deriving DecidableEq, Repr

/-- The class name used in the `RuntimeError` message. -/
def VLayer.className : VLayer → String
  | .conv2d => "Conv2d"
  | .relu _ => "ReLU"
  | .maxPool2d => "MaxPool2d"
  | .batchNorm2d => "BatchNorm2d"
  | .other s => s

/-- One step of the naming `if/elif` chain of `get_model_and_losses`:
given the running block index `i` and the next source layer, returns
the updated index, the canonical name, and the layer actually inserted
(`ReLU` is replaced by a fresh `inplace=False` instance); `none` for an
unrecognized layer type (the `else: raise RuntimeError` branch). -/
def nameAndLayer (i : ℕ) : VLayer → Option (ℕ × String × VLayer)
  | .conv2d => some (i + 1, "conv_" ++ toString (i + 1), .conv2d)
  | .relu _ => some (i, "relu_" ++ toString i, .relu false)
  | .maxPool2d => some (i, "pool_" ++ toString i, .maxPool2d)
  | .batchNorm2d => some (i, "bn_" ++ toString i, .batchNorm2d)
  | .other _ => none

/-- The `for layer in cnn.children()` loop of `get_model_and_losses`.
State: remaining layers, running block index `i`, running `num_loss`.
Returns the model entries contributed from this point on together with
the numbers of `ContentLoss` and `StyleLoss` probes appended to
`content_losses` / `style_losses` (the returned Python lists are
modelled by their lengths, the probe objects being value-free).
`expected` is `expected_num_loss`; the loop `break`s as soon as
`num_loss >= expected_num_loss` after processing a layer. -/
def assembleAux (cs ss : List String) (expected : ℕ) :
    List VLayer → ℕ → ℕ → Except String (List (String × MEntry) × ℕ × ℕ)
  | [], _, _ => .ok ([], 0, 0)
  | l :: rest, i, numLoss =>
    match nameAndLayer i l with
    | none => .error ("Unrecognized layer: " ++ l.className)
    | some (i', name, l') =>
      let centry : List (String × MEntry) :=
        if name ∈ cs then [("content_loss_" ++ toString i', MEntry.contentProbe)] else []
      let sentry : List (String × MEntry) :=
        if name ∈ ss then [("style_loss_" ++ toString i', MEntry.styleProbe)] else []
      let num' := numLoss + centry.length + sentry.length
      if expected ≤ num' then
        .ok ((name, MEntry.layerE l') :: (centry ++ sentry), centry.length, sentry.length)
      else
        match assembleAux cs ss expected rest i' num' with
        | .ok (entries, nc, ns) =>
          .ok ((name, MEntry.layerE l') :: (centry ++ sentry) ++ entries,
               centry.length + nc, sentry.length + ns)
        | .error e => .error e

/-- Models `get_model_and_losses(content_img, style_img, content_layers,
style_layers)`: the model starts as `Sequential(Normalization(...))`
(whose single module is auto-named `"0"`), then the loop above runs
with `i = 0`, `num_loss = 0` and
`expected_num_loss = len(content_layers) + len(style_layers)`. -/
def get_model_and_losses (cs ss : List String) (cnn : List VLayer) :
    Except String (List (String × MEntry) × ℕ × ℕ) :=
  match assembleAux cs ss (cs.length + ss.length) cnn 0 0 with
  | .ok (entries, nc, ns) => .ok (("0", MEntry.normalization) :: entries, nc, ns)
  | .error e => .error e

/-- The layer list of `torchvision.models.vgg19(pretrained=True).features`
(configuration "E"): 16 convolutions, 16 in-place ReLUs, 5 max-poolings,
in the standard 2-2-4-4-4 block pattern. -/
def vgg19Layers : List VLayer :=
  [.conv2d, .relu true, .conv2d, .relu true, .maxPool2d,
   .conv2d, .relu true, .conv2d, .relu true, .maxPool2d,
   .conv2d, .relu true, .conv2d, .relu true, .conv2d, .relu true, .conv2d, .relu true, .maxPool2d,
   .conv2d, .relu true, .conv2d, .relu true, .conv2d, .relu true, .conv2d, .relu true, .maxPool2d,
   .conv2d, .relu true, .conv2d, .relu true, .conv2d, .relu true, .conv2d, .relu true, .maxPool2d]

/-- The `default_content_layers` list from the script. -/
def default_content_layers : List String := ["conv_4"]

/-- The `default_style_layers` list from the script. -/
def default_style_layers : List String :=
  ["conv_1", "conv_2", "conv_3", "conv_4", "conv_5"]

/-- Whether an assembled entry is a loss probe. -/
def MEntry.isProbe : MEntry → Bool
  | .contentProbe => true
  | .styleProbe => true
  | _ => false

/-- Number of probes embedded in an assembled model. -/
def probeCount (m : List (String × MEntry)) : ℕ :=
  m.countP fun p => p.2.isProbe

/-- The named source layers of an assembled model, in order (probes and
the normalization module dropped). -/
def layerEntries (m : List (String × MEntry)) : List (String × VLayer) :=
  m.filterMap fun p =>
    match p.2 with
    | .layerE l => some (p.1, l)
    | _ => none

/-- Whether the assembler recognizes a layer (anything but `other`). -/
def VLayer.recognized : VLayer → Bool
  | .other _ => false
  | _ => true

/-- The canonical renaming scheme the spec describes: a running index
incremented only at convolutions, names `conv_i` / `relu_i` / `pool_i`
/ `bn_i` derived from it, ReLU replaced by a fresh out-of-place
instance.  Stops at the first unrecognized layer. -/
def canonicalLayers : ℕ → List VLayer → List (String × VLayer)
  | i, .conv2d :: rest =>
      ("conv_" ++ toString (i + 1), .conv2d) :: canonicalLayers (i + 1) rest
  | i, .relu _ :: rest =>
      ("relu_" ++ toString i, .relu false) :: canonicalLayers i rest
  | i, .maxPool2d :: rest =>
      ("pool_" ++ toString i, .maxPool2d) :: canonicalLayers i rest
  | i, .batchNorm2d :: rest =>
      ("bn_" ++ toString i, .batchNorm2d) :: canonicalLayers i rest
  | _, .other _ :: _ => []
  | _, [] => []

/-- The canonical names assigned while walking the source layer list. -/
def canonicalNames (i : ℕ) (L : List VLayer) : List String :=
  (canonicalLayers i L).map Prod.fst

/-- Number of probes the walk would insert over a stretch of canonical
names: one per occurrence of a name in `content_layers` plus one per
occurrence in `style_layers`. -/
def countJoint (cs ss : List String) (names : List String) : ℕ :=
  names.countP (fun x => decide (x ∈ cs)) + names.countP (fun x => decide (x ∈ ss))

/-! ## The optimization loop -/

/-- The `while steps <= 5000` loop.  One `body` execution stands for one
full cycle (clamp, `zero_grad`, forward, loss summation, `backward`,
`steps += 1`, periodic report, `optimizer.step()`); its tensor/autograd
effect is abstracted as an arbitrary state update, since the loop's
control flow never inspects the state.  Returns the number of body
executions together with the final state. -/
def optimizeLoop {S : Type} (body : S → S) (steps : ℕ) (s : S) : ℕ × S :=
  if steps ≤ 5000 then
    let r := optimizeLoop body (steps + 1) (body s)
    (r.1 + 1, r.2)
  else (0, s)
  termination_by 5001 - steps

/-- The script's top level around the loop: `get_model_and_losses` runs
first; only if it returns does the loop (started at `steps = 0`) run. -/
def runScript {S : Type} (cs ss : List String) (cnn : List VLayer)
    (body : S → S) (s : S) : Except String (ℕ × S) :=
  match get_model_and_losses cs ss cnn with
  | .ok _ => .ok (optimizeLoop body 0 s)
  | .error e => .error e

/-- The model that assembling VGG19 with the script's default layer
sets must produce: truncated right after `conv_5`'s style probe, six
probes in total, no `conv_6` or later layer. -/
def vggExpectedModel : List (String × MEntry) :=
  [("0", .normalization),
   ("conv_1", .layerE .conv2d), ("style_loss_1", .styleProbe),
   ("relu_1", .layerE (.relu false)),
   ("conv_2", .layerE .conv2d), ("style_loss_2", .styleProbe),
   ("relu_2", .layerE (.relu false)),
   ("pool_2", .layerE .maxPool2d),
   ("conv_3", .layerE .conv2d), ("style_loss_3", .styleProbe),
   ("relu_3", .layerE (.relu false)),
   ("conv_4", .layerE .conv2d), ("content_loss_4", .contentProbe),
   ("style_loss_4", .styleProbe),
   ("relu_4", .layerE (.relu false)),
   ("pool_4", .layerE .maxPool2d),
   ("conv_5", .layerE .conv2d), ("style_loss_5", .styleProbe)]

/-! ## Numeric model of the losses

Tensors are real-valued; `torch.cosine_similarity(A, B)` (default
`dim=1`) on `[c, m]` views is modelled per row as
`dot(A_k, B_k) / (√(dot(A_k, A_k)) * √(dot(B_k, B_k)))`.  Real-number
division by zero is `0` in Lean, which coincides with the eps-clamped
(essentially zero) result the float kernel returns on degenerate rows;
on non-degenerate rows the model is the exact cosine. -/

/-- A `[n, c, h, w]` feature map. -/
def Tensor4 (n c h w : ℕ) : Type := Fin n → Fin c → Fin h → Fin w → ℝ

/-- Models `x.reshape(n * c, h * w)`: row-major reshape of a `[n,c,h,w]`
tensor, as in `gram`. -/
def features {n c h w : ℕ} (x : Tensor4 n c h w) : Matrix (Fin (n * c)) (Fin (h * w)) ℝ :=
  Matrix.of fun i j => x i.divNat i.modNat j.divNat j.modNat

/-- Models `gram(x) = torch.mm(features, features.T) / n / c / h / w`. -/
noncomputable def gram {n c h w : ℕ} (x : Tensor4 n c h w) :
    Matrix (Fin (n * c)) (Fin (n * c)) ℝ :=
  Matrix.of fun i j =>
    (features x * Matrix.transpose (features x)) i j / (n : ℝ) / (c : ℝ) / (h : ℝ) / (w : ℝ)

/-- Row `k` of `torch.cosine_similarity(A, B)` for `[c, m]` matrices
(similarity along `dim=1`, one scalar per row). -/
noncomputable def cosineSimilarityRow {c m : ℕ} (A B : Matrix (Fin c) (Fin m) ℝ)
    (k : Fin c) : ℝ :=
  Matrix.dotProduct (A k) (B k) /
    (Real.sqrt (Matrix.dotProduct (A k) (A k)) *
      Real.sqrt (Matrix.dotProduct (B k) (B k)))

/-- Models `t.view(t.shape[1], -1)` for a batch-1 tensor `[1, c, h, w]`:
`c` rows of `h * w` spatial values (row-major). -/
def viewChannels {c h w : ℕ} (x : Tensor4 1 c h w) : Matrix (Fin c) (Fin (h * w)) ℝ :=
  Matrix.of fun k j => x 0 k j.divNat j.modNat

/-- Models `G.view(c, -1)` for the `[1*c, 1*c]` Gram matrix of a batch-1
feature map: since `1 * c = c`, the row-major reshape to `c` rows of
`c` columns is the identity re-indexing. -/
def styleView {c : ℕ} (G : Matrix (Fin (1 * c)) (Fin (1 * c)) ℝ) :
    Matrix (Fin c) (Fin c) ℝ :=
  Matrix.of fun a b =>
    G ⟨a.1, by simp [a.2]⟩ ⟨b.1, by simp [b.2]⟩

/-- The `ContentLoss` module: stores the detached target features; `self.loss` is
absent until the first `forward` call (modelled by `Option`). -/
structure ContentLoss (c h w : ℕ) where
  target : Tensor4 1 c h w
  loss : Option ℝ

/-- Models `ContentLoss.__init__`: `self.target = target.detach()` (`detach`
is the identity on values). -/
def ContentLoss.init {c h w : ℕ} (target : Tensor4 1 c h w) : ContentLoss c h w :=
  ⟨target, none⟩

/-- Models `ContentLoss.forward`: sets
`self.loss = 1 - cosine_similarity(input.view(c,-1), target.view(c,-1)).sum() / c`
and returns `input` unchanged. -/
noncomputable def ContentLoss.forward {c h w : ℕ} (self : ContentLoss c h w)
    (input : Tensor4 1 c h w) : Tensor4 1 c h w × ContentLoss c h w :=
  (input,
   { self with
      loss := some (1 - (∑ k : Fin c,
        cosineSimilarityRow (viewChannels input) (viewChannels self.target) k) / (c : ℝ)) })

/-- The `StyleLoss` module: stores the detached Gram matrix of the target
features; `self.loss` is absent until the first `forward` call. -/
structure StyleLoss (c : ℕ) where
  target : Matrix (Fin (1 * c)) (Fin (1 * c)) ℝ
  loss : Option ℝ

/-- Models `StyleLoss.__init__`: `self.target = gram(target.detach()).detach()`. -/
noncomputable def StyleLoss.init {c h w : ℕ} (target : Tensor4 1 c h w) : StyleLoss c :=
  ⟨gram target, none⟩

/-- Models `StyleLoss.forward`: computes `G = gram(input)`, sets
`self.loss = 1 - cosine_similarity(G.view(c,-1), target.view(c,-1)).sum() / c`
and returns `input` unchanged. -/
noncomputable def StyleLoss.forward {c : ℕ} (self : StyleLoss c) {h w : ℕ}
    (input : Tensor4 1 c h w) : Tensor4 1 c h w × StyleLoss c :=
  (input,
   { self with
      loss := some (1 - (∑ k : Fin c,
        cosineSimilarityRow (styleView (gram input)) (styleView self.target) k) / (c : ℝ)) })

/-- Iteration count of the loop: `5001 - steps` body executions from
any starting `steps` value (so `5001` from the script's `steps = 0`). -/
theorem optimizeLoop_count {S : Type} (body : S → S) :
    ∀ (steps : ℕ) (s : S), (optimizeLoop body steps s).1 = 5001 - steps := by
  suffices h : ∀ (k steps : ℕ) (s : S), 5001 - steps ≤ k →
      (optimizeLoop body steps s).1 = 5001 - steps by
    intro steps s
    exact h (5001 - steps) steps s le_rfl
  intro k
  induction k with
  | zero =>
    intro steps s hk
    rw [optimizeLoop]
    have : ¬ steps ≤ 5000 := by omega
    simp [this]
    omega
  | succ k ih =>
    intro steps s hk
    rw [optimizeLoop]
    by_cases h : steps ≤ 5000
    · have := ih (steps + 1) (body s) (by omega)
      simp [h, this]
      omega
    · simp [h]
      omega

/-! ### Helper lemmas about the assembly walk -/

theorem canonicalLayers_cons_of_nameAndLayer {i i' : ℕ} {l l' : VLayer} {name : String}
    (rest : List VLayer) (h : nameAndLayer i l = some (i', name, l')) :
    canonicalLayers i (l :: rest) = (name, l') :: canonicalLayers i' rest := by
  cases l <;>
    simp only [nameAndLayer, Option.some.injEq, Prod.mk.injEq, reduceCtorEq] at h <;>
    obtain ⟨h1, h2, h3⟩ := h <;> subst h1 <;> subst h2 <;> subst h3 <;> rfl

theorem countJoint_nil (cs ss : List String) : countJoint cs ss [] = 0 := by
  simp [countJoint]

theorem countJoint_cons (cs ss : List String) (x : String) (names : List String) :
    countJoint cs ss (x :: names) =
      countJoint cs ss names +
        ((if x ∈ cs then 1 else 0) + (if x ∈ ss then 1 else 0)) := by
  simp only [countJoint, List.countP_cons, decide_eq_true_eq]
  omega

theorem probeCount_nil : probeCount [] = 0 := rfl

theorem probeCount_cons (p : String × MEntry) (m : List (String × MEntry)) :
    probeCount (p :: m) = probeCount m + (if p.2.isProbe then 1 else 0) := by
  simp [probeCount, List.countP_cons]

theorem probeCount_append (m₁ m₂ : List (String × MEntry)) :
    probeCount (m₁ ++ m₂) = probeCount m₁ + probeCount m₂ := by
  simp [probeCount, List.countP_append]

theorem probeCount_pos_ne_nil {m : List (String × MEntry)} (h : 0 < probeCount m) :
    m ≠ [] := by
  intro hnil
  rw [hnil] at h
  simp [probeCount] at h

theorem layerEntries_nil : layerEntries [] = [] := rfl

theorem layerEntries_cons (p : String × MEntry) (m : List (String × MEntry)) :
    layerEntries (p :: m) =
      (match p.2 with
       | .layerE l => [(p.1, l)]
       | _ => []) ++ layerEntries m := by
  cases p with
  | mk nm e => cases e <;> simp [layerEntries, List.filterMap_cons]

theorem layerEntries_append (m₁ m₂ : List (String × MEntry)) :
    layerEntries (m₁ ++ m₂) = layerEntries m₁ ++ layerEntries m₂ := by
  simp [layerEntries, List.filterMap_append]

/-- A probe-entry list (as produced by the `if name in content_layers`
/ `if name in style_layers` bodies) contributes no layer entries. -/
theorem layerEntries_probe_ifs (nc nss : String) (hc hs : Prop)
    [Decidable hc] [Decidable hs] :
    layerEntries ((if hc then [(nc, MEntry.contentProbe)] else []) ++
        (if hs then [(nss, MEntry.styleProbe)] else [])) = [] := by
  by_cases h1 : hc <;> by_cases h2 : hs <;> simp [h1, h2, layerEntries]

theorem probeCount_probe_ifs (nc nss : String) (hc hs : Prop)
    [Decidable hc] [Decidable hs] :
    probeCount ((if hc then [(nc, MEntry.contentProbe)] else []) ++
        (if hs then [(nss, MEntry.styleProbe)] else [])) =
      (if hc then 1 else 0) + (if hs then 1 else 0) := by
  by_cases h1 : hc <;> by_cases h2 : hs <;>
    simp [h1, h2, probeCount, MEntry.isProbe]

theorem nameAndLayer_isSome {l : VLayer} (i : ℕ) (h : l.recognized = true) :
    ∃ i' name l', nameAndLayer i l = some (i', name, l') := by
  cases l <;> simp_all [VLayer.recognized, nameAndLayer]

theorem length_ite_singleton {α : Type} (h : Prop) [Decidable h] (a : α) :
    (if h then [a] else []).length = if h then 1 else 0 := by
  split <;> rfl

/-- Core truncation lemma: whenever the probes contributed by the
remaining canonical names would bring `num_loss` from its current value
`num` exactly to `expected_num_loss` (and `num` is still short of it),
the loop succeeds, inserts exactly the missing probes, and the last
entry it appends is a probe — nothing is assembled past it. -/
theorem assembleAux_reaches_expected (cs ss : List String) :
    ∀ (L : List VLayer) (i num : ℕ),
      (∀ l ∈ L, l.recognized = true) →
      num + countJoint cs ss (canonicalNames i L) = cs.length + ss.length →
      num < cs.length + ss.length →
      ∃ entries nc ns,
        assembleAux cs ss (cs.length + ss.length) L i num = .ok (entries, nc, ns) ∧
        probeCount entries = (cs.length + ss.length) - num ∧
        ∃ nm e, entries.getLast? = some (nm, e) ∧ e.isProbe = true := by
  intro L
  induction L with
  | nil =>
    intro i num _ hsum hlt
    rw [canonicalNames] at hsum
    simp only [canonicalLayers, List.map_nil, countJoint_nil] at hsum
    omega
  | cons l rest ih =>
    intro i num hrec hsum hlt
    obtain ⟨i', name, l', hnl⟩ := nameAndLayer_isSome i (hrec l (List.mem_cons_self l rest))
    have hcn : canonicalNames i (l :: rest) = name :: canonicalNames i' rest := by
      rw [canonicalNames, canonicalLayers_cons_of_nameAndLayer rest hnl]
      rfl
    rw [hcn, countJoint_cons] at hsum
    simp only [assembleAux, hnl, length_ite_singleton]
    by_cases hbr : cs.length + ss.length ≤
        num + (if name ∈ cs then 1 else 0) + (if name ∈ ss then 1 else 0)
    · rw [if_pos hbr]
      refine ⟨_, _, _, rfl, ?_, ?_⟩
      · rw [probeCount_cons, probeCount_probe_ifs]
        simp only [MEntry.isProbe, Bool.false_eq_true, if_false]
        omega
      · have hone : 1 ≤ (if name ∈ cs then 1 else 0) + (if name ∈ ss then 1 else 0) := by
          omega
        by_cases hs : name ∈ ss
        · refine ⟨"style_loss_" ++ toString i', .styleProbe, ?_, rfl⟩
          rw [← List.cons_append,
            List.getLast?_append_of_ne_nil _ (by simp [hs] : (if name ∈ ss then
              [("style_loss_" ++ toString i', MEntry.styleProbe)] else []) ≠ []),
            if_pos hs]
          rfl
        · have hc : name ∈ cs := by
            by_contra hcc
            simp [hcc, hs] at hone
          refine ⟨"content_loss_" ++ toString i', .contentProbe, ?_, rfl⟩
          rw [if_neg hs, List.append_nil, ← List.singleton_append,
            List.getLast?_append_of_ne_nil _ (by simp [hc] : (if name ∈ cs then
              [("content_loss_" ++ toString i', MEntry.contentProbe)] else []) ≠ []),
            if_pos hc]
          rfl
    · rw [if_neg hbr]
      obtain ⟨entries', nc', ns', hok, hpc, hlast⟩ :=
        ih i' (num + (if name ∈ cs then 1 else 0) + (if name ∈ ss then 1 else 0))
          (fun x hx => hrec x (List.mem_cons_of_mem l hx)) (by omega) (by omega)
      rw [hok]
      refine ⟨_, _, _, rfl, ?_, ?_⟩
      · rw [probeCount_append, probeCount_cons, probeCount_probe_ifs, hpc]
        simp only [MEntry.isProbe, Bool.false_eq_true, if_false]
        omega
      · obtain ⟨nm, e, hgl, hpe⟩ := hlast
        refine ⟨nm, e, ?_, hpe⟩
        rw [List.getLast?_append_of_ne_nil _ (probeCount_pos_ne_nil (by omega))]
        exact hgl

/-- Exhaustion lemma: if the probes contributed by the remaining
canonical names leave `num_loss` strictly below `expected_num_loss`,
the loop never breaks: it consumes every remaining layer and returns
normally with exactly the contributed probes. -/
theorem assembleAux_exhausts (cs ss : List String) :
    ∀ (L : List VLayer) (i num : ℕ),
      (∀ l ∈ L, l.recognized = true) →
      num + countJoint cs ss (canonicalNames i L) < cs.length + ss.length →
      ∃ entries nc ns,
        assembleAux cs ss (cs.length + ss.length) L i num = .ok (entries, nc, ns) ∧
        probeCount entries = countJoint cs ss (canonicalNames i L) ∧
        (layerEntries entries).length = L.length := by
  intro L
  induction L with
  | nil =>
    intro i num _ _
    exact ⟨[], 0, 0, rfl, by simp [canonicalNames, canonicalLayers, countJoint_nil,
      probeCount_nil, layerEntries_nil], by simp [layerEntries_nil]⟩
  | cons l rest ih =>
    intro i num hrec hsum
    obtain ⟨i', name, l', hnl⟩ := nameAndLayer_isSome i (hrec l (List.mem_cons_self l rest))
    have hcn : canonicalNames i (l :: rest) = name :: canonicalNames i' rest := by
      rw [canonicalNames, canonicalLayers_cons_of_nameAndLayer rest hnl]
      rfl
    rw [hcn, countJoint_cons] at hsum ⊢
    simp only [assembleAux, hnl, length_ite_singleton]
    have hbr : ¬ (cs.length + ss.length ≤
        num + (if name ∈ cs then 1 else 0) + (if name ∈ ss then 1 else 0)) := by
      omega
    rw [if_neg hbr]
    obtain ⟨entries', nc', ns', hok, hpc, hle⟩ :=
      ih i' (num + (if name ∈ cs then 1 else 0) + (if name ∈ ss then 1 else 0))
        (fun x hx => hrec x (List.mem_cons_of_mem l hx)) (by omega)
    rw [hok]
    refine ⟨_, _, _, rfl, ?_, ?_⟩
    · rw [probeCount_append, probeCount_cons, probeCount_probe_ifs, hpc]
      simp only [MEntry.isProbe, Bool.false_eq_true, if_false]
      omega
    · rw [layerEntries_append, layerEntries_cons]
      simp only [List.length_append]
      rw [layerEntries_probe_ifs]
      simp only [hle, List.length_cons, List.length_nil]
      omega

/-- Naming lemma: whenever the assembly loop returns normally, the
source-layer entries of its output are (in order, with their names) a
prefix of the canonical renaming of the walked layer list. -/
theorem assembleAux_layerEntries_prefix (cs ss : List String) (expected : ℕ) :
    ∀ (L : List VLayer) (i num : ℕ) (entries : List (String × MEntry)) (nc ns : ℕ),
      assembleAux cs ss expected L i num = .ok (entries, nc, ns) →
      layerEntries entries <+: canonicalLayers i L := by
  intro L
  induction L with
  | nil =>
    intro i num entries nc ns h
    simp only [assembleAux, Except.ok.injEq, Prod.mk.injEq] at h
    rw [← h.1, layerEntries_nil]
    exact List.nil_prefix
  | cons l rest ih =>
    intro i num entries nc ns h
    by_cases hl : l.recognized = true
    · obtain ⟨i', name, l', hnl⟩ := nameAndLayer_isSome i hl
      rw [canonicalLayers_cons_of_nameAndLayer rest hnl]
      simp only [assembleAux, hnl] at h
      by_cases hbr : expected ≤
          num + (if name ∈ cs then [("content_loss_" ++ toString i',
            MEntry.contentProbe)] else []).length +
            (if name ∈ ss then [("style_loss_" ++ toString i',
              MEntry.styleProbe)] else []).length
      · rw [if_pos hbr] at h
        simp only [Except.ok.injEq, Prod.mk.injEq] at h
        rw [← h.1, layerEntries_cons, layerEntries_probe_ifs]
        exact ⟨canonicalLayers i' rest, rfl⟩
      · rw [if_neg hbr] at h
        cases hrec : assembleAux cs ss expected rest i'
            (num + (if name ∈ cs then [("content_loss_" ++ toString i',
              MEntry.contentProbe)] else []).length +
              (if name ∈ ss then [("style_loss_" ++ toString i',
                MEntry.styleProbe)] else []).length) with
        | error e => rw [hrec] at h; simp at h
        | ok r =>
          obtain ⟨entries', nc', ns'⟩ := r
          rw [hrec] at h
          simp only [Except.ok.injEq, Prod.mk.injEq] at h
          obtain ⟨t, ht⟩ := ih i' _ entries' nc' ns' hrec
          rw [← h.1, layerEntries_append, layerEntries_cons, layerEntries_probe_ifs]
          exact ⟨t, by simp [ht]⟩
    · have : l = .other l.className := by
        cases l <;> simp_all [VLayer.recognized, VLayer.className]
      rw [this] at h
      simp [assembleAux, nameAndLayer] at h

/-- Counting a duplicate-free request list that fully occurs among
duplicate-free names: each requested name is hit exactly once. -/
theorem countP_mem_eq_length (names cs : List String) (hn : names.Nodup) (hc : cs.Nodup)
    (hsub : ∀ x ∈ cs, x ∈ names) :
    names.countP (fun x => decide (x ∈ cs)) = cs.length := by
  rw [List.countP_eq_length_filter]
  have hperm : List.Perm (names.filter (fun x => decide (x ∈ cs))) cs := by
    rw [List.perm_ext_iff_of_nodup (hn.filter _) hc]
    intro a
    simp only [List.mem_filter, decide_eq_true_eq]
    exact ⟨fun h => h.2, fun h => ⟨hsub a h, h⟩⟩
  exact hperm.length_eq

/-- Counting a duplicate-free request list against duplicate-free
names never exceeds the request list's length. -/
theorem countP_mem_le_length (names cs : List String) (hn : names.Nodup) (hc : cs.Nodup) :
    names.countP (fun x => decide (x ∈ cs)) ≤ cs.length := by
  rw [List.countP_eq_length_filter]
  rw [← List.toFinset_card_of_nodup (hn.filter _), ← List.toFinset_card_of_nodup hc]
  apply Finset.card_le_card
  intro a ha
  simp only [List.mem_toFinset, List.mem_filter, decide_eq_true_eq] at ha ⊢
  exact ha.2

/-- If some requested name is absent from the (duplicate-free) names,
the count falls strictly short of the request list's length. -/
theorem countP_mem_lt_length (names cs : List String) (hn : names.Nodup) (hc : cs.Nodup)
    (x₀ : String) (hx₀c : x₀ ∈ cs) (hx₀n : x₀ ∉ names) :
    names.countP (fun x => decide (x ∈ cs)) < cs.length := by
  rw [List.countP_eq_length_filter]
  rw [← List.toFinset_card_of_nodup (hn.filter _), ← List.toFinset_card_of_nodup hc]
  apply Finset.card_lt_card
  rw [Finset.ssubset_iff_of_subset]
  · refine ⟨x₀, ?_, ?_⟩
    · simpa using hx₀c
    · simp only [List.mem_toFinset, List.mem_filter, decide_eq_true_eq, not_and]
      intro hmem
      exact absurd hmem hx₀n
  · intro a ha
    simp only [List.mem_toFinset, List.mem_filter, decide_eq_true_eq] at ha ⊢
    exact ha.2

/-- The canonical renaming only ever emits out-of-place ReLU layers. -/
theorem canonicalLayers_relu_false :
    ∀ (L : List VLayer) (i : ℕ) (nm : String) (b : Bool),
      (nm, VLayer.relu b) ∈ canonicalLayers i L → b = false := by
  intro L
  induction L with
  | nil => intro i nm b h; simp [canonicalLayers] at h
  | cons l rest ih =>
    intro i nm b h
    cases l <;> simp only [canonicalLayers] at h
    case conv2d =>
      rcases List.mem_cons.mp h with h1 | h2
      · simp at h1
      · exact ih _ _ _ h2
    case relu inpl =>
      rcases List.mem_cons.mp h with h1 | h2
      · simp only [Prod.mk.injEq, VLayer.relu.injEq] at h1
        exact h1.2
      · exact ih _ _ _ h2
    case other s => simp at h
    case maxPool2d =>
      rcases List.mem_cons.mp h with h1 | h2
      · simp at h1
      · exact ih _ _ _ h2
    case batchNorm2d =>
      rcases List.mem_cons.mp h with h1 | h2
      · simp at h1
      · exact ih _ _ _ h2

/-- C2: for any duplicate-free content/style layer-name lists whose
names all occur among the canonical names of the (recognized,
canonically-unambiguous) source network, `get_model_and_losses`
succeeds, embeds exactly `len(content_layers) + len(style_layers)`
probes, and stops assembling the moment that count is reached — the
model's last entry is a probe, so no layer after the last requested
probe is added.  In particular, with the script's defaults
(`content_layers = ['conv_4']`, `style_layers = ['conv_1'..'conv_5']`)
on VGG19 it yields exactly 6 probes and an extractor whose last layers
are `conv_5` and its style probe, with no `conv_6` or later layer. -/
theorem assembly_truncates_at_expected_probes :
    (∀ (cs ss : List String) (L : List VLayer),
        (∀ l ∈ L, l.recognized = true) →
        (canonicalNames 0 L).Nodup → cs.Nodup → ss.Nodup →
        (∀ x ∈ cs, x ∈ canonicalNames 0 L) →
        (∀ x ∈ ss, x ∈ canonicalNames 0 L) →
        ∃ m nc ns,
          get_model_and_losses cs ss L = .ok (m, nc, ns) ∧
          probeCount m = cs.length + ss.length ∧
          (0 < cs.length + ss.length →
            ∃ nm e, m.getLast? = some (nm, e) ∧ e.isProbe = true)) ∧
    get_model_and_losses default_content_layers default_style_layers vgg19Layers =
      .ok (vggExpectedModel, 1, 5) := by
  constructor
  · intro cs ss L hrec hn hc hs hsubc hsubs
    by_cases hE : cs.length + ss.length = 0
    · have hcs : cs = [] := List.length_eq_zero.mp (by omega)
      have hss : ss = [] := List.length_eq_zero.mp (by omega)
      subst hcs hss
      cases L with
      | nil =>
        refine ⟨[("0", .normalization)], 0, 0, rfl, ?_, ?_⟩
        · simp [probeCount, MEntry.isProbe]
        · simp
      | cons l rest =>
        obtain ⟨i', name, l', hnl⟩ :=
          nameAndLayer_isSome 0 (hrec l (List.mem_cons_self l rest))
        refine ⟨[("0", .normalization), (name, .layerE l')], 0, 0, ?_, ?_, ?_⟩
        · simp [get_model_and_losses, assembleAux, hnl]
        · simp [probeCount, MEntry.isProbe]
        · simp
    · obtain ⟨entries, nc, ns, hok, hpc, hlast⟩ :=
        assembleAux_reaches_expected cs ss L 0 0 hrec
          (by
            rw [countJoint, countP_mem_eq_length _ _ hn hc hsubc,
              countP_mem_eq_length _ _ hn hs hsubs]
            omega)
          (by omega)
      refine ⟨("0", .normalization) :: entries, nc, ns, ?_, ?_, fun _ => ?_⟩
      · simp only [get_model_and_losses, hok]
      · rw [probeCount_cons, hpc]
        simp only [MEntry.isProbe, Bool.false_eq_true, if_false]
        omega
      · obtain ⟨nm, e, hgl, hpe⟩ := hlast
        refine ⟨nm, e, ?_, hpe⟩
        rw [← List.singleton_append,
          List.getLast?_append_of_ne_nil _ (probeCount_pos_ne_nil (by omega))]
        exact hgl
  · rfl

/-- C2 witness: the general statement applied to the script's own
configuration (VGG19, default content/style layer names). -/
theorem assembly_truncates_at_expected_probes_witness :
    ∃ m nc ns,
      get_model_and_losses default_content_layers default_style_layers vgg19Layers =
        .ok (m, nc, ns) ∧
      probeCount m = default_content_layers.length + default_style_layers.length ∧
      (0 < default_content_layers.length + default_style_layers.length →
        ∃ nm e, m.getLast? = some (nm, e) ∧ e.isProbe = true) :=
  assembly_truncates_at_expected_probes.1 default_content_layers default_style_layers
    vgg19Layers (by decide) (by decide) (by decide) (by decide) (by decide) (by decide)

/-- C9: whenever `get_model_and_losses` returns, its source-layer
entries are (names included) a prefix of the canonical renaming scheme
— a running index incremented only at convolutions, each layer named
`conv_i` / `relu_i` / `pool_i` / `bn_i` with relu/pool/bn sharing the
preceding convolution's index — and every inserted ReLU layer is a
fresh non-in-place (`inplace=False`) instance. -/
theorem assembly_canonical_naming (cs ss : List String) (L : List VLayer)
    (m : List (String × MEntry)) (nc ns : ℕ)
    (h : get_model_and_losses cs ss L = .ok (m, nc, ns)) :
    layerEntries m <+: canonicalLayers 0 L ∧
    ∀ (nm : String) (b : Bool), (nm, MEntry.layerE (.relu b)) ∈ m → b = false := by
  rw [get_model_and_losses] at h
  cases hok : assembleAux cs ss (cs.length + ss.length) L 0 0 with
  | error e => rw [hok] at h; simp at h
  | ok r =>
    obtain ⟨entries, nc', ns'⟩ := r
    rw [hok] at h
    simp only [Except.ok.injEq, Prod.mk.injEq] at h
    have hm : m = ("0", MEntry.normalization) :: entries := h.1.symm
    have hpre : layerEntries entries <+: canonicalLayers 0 L :=
      assembleAux_layerEntries_prefix cs ss _ L 0 0 entries nc' ns' hok
    constructor
    · rw [hm, layerEntries_cons]
      simpa using hpre
    · intro nm b hmem
      rw [hm] at hmem
      rcases List.mem_cons.mp hmem with h1 | h2
      · simp at h1
      · have hfm : (nm, VLayer.relu b) ∈ layerEntries entries :=
          List.mem_filterMap.mpr ⟨(nm, MEntry.layerE (.relu b)), h2, rfl⟩
        exact canonicalLayers_relu_false L 0 nm b (hpre.sublist.subset hfm)

/-- C9 witness: a concrete five-layer network assembled with a probe at
`conv_2`; the resulting layer entries follow the canonical naming and
the inserted ReLU is out-of-place. -/
theorem assembly_canonical_naming_witness :
    layerEntries
        [("0", .normalization), ("conv_1", .layerE .conv2d),
         ("relu_1", .layerE (.relu false)), ("pool_1", .layerE .maxPool2d),
         ("conv_2", .layerE .conv2d), ("content_loss_2", .contentProbe)] <+:
      canonicalLayers 0 [.conv2d, .relu true, .maxPool2d, .conv2d, .relu true] ∧
    ∀ (nm : String) (b : Bool),
      (nm, MEntry.layerE (.relu b)) ∈
        [("0", .normalization), ("conv_1", .layerE .conv2d),
         ("relu_1", .layerE (.relu false)), ("pool_1", .layerE .maxPool2d),
         ("conv_2", .layerE .conv2d), ("content_loss_2", .contentProbe)] →
      b = false :=
  assembly_canonical_naming ["conv_2"] [] [.conv2d, .relu true, .maxPool2d, .conv2d, .relu true]
    [("0", .normalization), ("conv_1", .layerE .conv2d),
     ("relu_1", .layerE (.relu false)), ("pool_1", .layerE .maxPool2d),
     ("conv_2", .layerE .conv2d), ("content_loss_2", .contentProbe)] 1 0 rfl

/-- C10: if some requested content- or style-layer name never occurs
among the canonical names of the (recognized, canonically-unambiguous)
source network, `get_model_and_losses` returns normally after
consuming every source layer — with strictly fewer probes than
`len(content_layers) + len(style_layers)` and no truncation — instead
of signalling an error. -/
theorem assembly_missing_name_returns_normally (cs ss : List String) (L : List VLayer)
    (hrec : ∀ l ∈ L, l.recognized = true)
    (hn : (canonicalNames 0 L).Nodup) (hc : cs.Nodup) (hs : ss.Nodup)
    (x₀ : String) (hx₀ : x₀ ∈ cs ++ ss) (hmiss : x₀ ∉ canonicalNames 0 L) :
    ∃ m nc ns,
      get_model_and_losses cs ss L = .ok (m, nc, ns) ∧
      probeCount m < cs.length + ss.length ∧
      (layerEntries m).length = L.length := by
  have hcj : countJoint cs ss (canonicalNames 0 L) < cs.length + ss.length := by
    rw [countJoint]
    rcases List.mem_append.mp hx₀ with hxc | hxs
    · have h1 := countP_mem_lt_length (canonicalNames 0 L) cs hn hc x₀ hxc hmiss
      have h2 := countP_mem_le_length (canonicalNames 0 L) ss hn hs
      omega
    · have h1 := countP_mem_le_length (canonicalNames 0 L) cs hn hc
      have h2 := countP_mem_lt_length (canonicalNames 0 L) ss hn hs x₀ hxs hmiss
      omega
  obtain ⟨entries, nc, ns, hok, hpc, hle⟩ :=
    assembleAux_exhausts cs ss L 0 0 hrec (by omega)
  refine ⟨("0", .normalization) :: entries, nc, ns, ?_, ?_, ?_⟩
  · simp only [get_model_and_losses, hok]
  · rw [probeCount_cons, hpc]
    simp [MEntry.isProbe]
    omega
  · rw [layerEntries_cons]
    simpa using hle

/-- C10 witness: requesting the nonexistent layer `conv_9` on a
one-convolution network returns normally with zero probes and the
whole network assembled. -/
theorem assembly_missing_name_returns_normally_witness :
    ∃ m nc ns,
      get_model_and_losses ["conv_9"] [] [.conv2d] = .ok (m, nc, ns) ∧
      probeCount m < (["conv_9"] : List String).length + ([] : List String).length ∧
      (layerEntries m).length = ([VLayer.conv2d] : List VLayer).length :=
  assembly_missing_name_returns_normally ["conv_9"] [] [.conv2d]
    (by decide) (by decide) (by decide) (by decide) "conv_9" (by decide) (by decide)

/-- C1 (amended): the optimizer loop (`steps = 0; while steps <= 5000`)
performs exactly 5001 iterations of the clamp/zero-grad/forward/
loss-sum/backward/step cycle, for every loop body and every starting
state — termination is determined solely by the iteration count, with
no early stopping or convergence check. -/
theorem optimizer_loop_runs_5001_iterations {S : Type} (body : S → S) (s : S) :
    (optimizeLoop body 0 s).1 = 5001 := by
  rw [optimizeLoop_count]

/-- C1 (counterexample): the loop does not perform exactly 5000
iterations — from the script's `steps = 0` it executes its body 5001
times, the condition `steps <= 5000` being true for
`steps = 0, 1, ..., 5000`. -/
theorem optimizer_loop_iterations_ne_5000 :
    ¬ (optimizeLoop (fun s : Unit => s) 0 ()).1 = 5000 := by
  rw [optimizeLoop_count]
  omega

/-- C8: on encountering a layer whose type is outside the recognized
set (`Conv2d`, `ReLU`, `MaxPool2d`, `BatchNorm2d`), the assembly loop
raises `RuntimeError(f'Unrecognized layer: {...}')` — a distinguishable
fatal error naming the offending class, never a silent skip — and any
assembly error occurs before the optimization loop starts: the script
propagates it and the loop never runs. -/
theorem unrecognized_layer_raises :
    (∀ (cs ss : List String) (expected : ℕ) (s : String) (rest : List VLayer) (i num : ℕ),
        assembleAux cs ss expected (.other s :: rest) i num =
          .error ("Unrecognized layer: " ++ s)) ∧
    (∀ (S : Type) (cs ss : List String) (cnn : List VLayer) (e : String)
        (body : S → S) (s : S),
        get_model_and_losses cs ss cnn = .error e →
        runScript cs ss cnn body s = .error e) := by
  constructor
  · intro cs ss expected s rest i num
    rfl
  · intro S cs ss cnn e body s h
    rw [runScript, h]

/-- C8 witness: assembling a network containing a `Dropout` layer fails
with the distinguishable error, and the script run aborts with it
before any loop iteration. -/
theorem unrecognized_layer_raises_witness :
    runScript ["conv_1"] [] [.other "Dropout"] (fun n : ℕ => n + 1) 0 =
      .error ("Unrecognized layer: " ++ "Dropout") :=
  unrecognized_layer_raises.2 ℕ ["conv_1"] [] [.other "Dropout"]
    ("Unrecognized layer: " ++ "Dropout") (fun n => n + 1) 0 rfl

/-! ### Numeric helper lemmas -/

theorem dotProduct_self_nonneg {m : ℕ} (u : Fin m → ℝ) :
    0 ≤ Matrix.dotProduct u u :=
  Finset.sum_nonneg fun i _ => mul_self_nonneg (u i)

theorem abs_dotProduct_le {m : ℕ} (u v : Fin m → ℝ) :
    |Matrix.dotProduct u v| ≤
      Real.sqrt (Matrix.dotProduct u u) * Real.sqrt (Matrix.dotProduct v v) := by
  have hu : Matrix.dotProduct u u = ∑ i, u i ^ 2 := by
    simp [Matrix.dotProduct, sq]
  have hv : Matrix.dotProduct v v = ∑ i, v i ^ 2 := by
    simp [Matrix.dotProduct, sq]
  have h1 : Matrix.dotProduct u v ≤ Real.sqrt (∑ i, u i ^ 2) * Real.sqrt (∑ i, v i ^ 2) :=
    Real.sum_mul_le_sqrt_mul_sqrt Finset.univ u v
  have h2 : -Matrix.dotProduct u v ≤ Real.sqrt (∑ i, u i ^ 2) * Real.sqrt (∑ i, v i ^ 2) := by
    have h := Real.sum_mul_le_sqrt_mul_sqrt Finset.univ (fun i => -u i) v
    simp only [neg_mul, Finset.sum_neg_distrib, neg_sq] at h
    simpa [Matrix.dotProduct] using h
  rw [hu, hv, abs_le]
  exact ⟨by linarith, h1⟩

theorem abs_cosineSimilarityRow_le_one {c m : ℕ} (A B : Matrix (Fin c) (Fin m) ℝ)
    (k : Fin c) : |cosineSimilarityRow A B k| ≤ 1 := by
  rw [cosineSimilarityRow]
  rcases eq_or_ne (Real.sqrt (Matrix.dotProduct (A k) (A k)) *
      Real.sqrt (Matrix.dotProduct (B k) (B k))) 0 with hz | hz
  · rw [hz, div_zero, abs_zero]
    exact zero_le_one
  · have hnn : 0 ≤ Real.sqrt (Matrix.dotProduct (A k) (A k)) *
        Real.sqrt (Matrix.dotProduct (B k) (B k)) :=
      mul_nonneg (Real.sqrt_nonneg _) (Real.sqrt_nonneg _)
    rw [abs_div, abs_of_nonneg hnn, div_le_one (hnn.lt_of_ne (Ne.symm hz))]
    exact abs_dotProduct_le _ _

theorem cosineSimilarityRow_self {c m : ℕ} (A : Matrix (Fin c) (Fin m) ℝ) (k : Fin c)
    (h : Matrix.dotProduct (A k) (A k) ≠ 0) : cosineSimilarityRow A A k = 1 := by
  rw [cosineSimilarityRow, Real.mul_self_sqrt (dotProduct_self_nonneg _), div_self h]

/-- One minus the mean of a family of values of absolute value at most one lies
in `[0, 2]` (also when the family is empty, `0/0 = 0` giving `1`). -/
theorem one_sub_mean_bounds {c : ℕ} (f : Fin c → ℝ) (hf : ∀ k, |f k| ≤ 1) :
    0 ≤ 1 - (∑ k, f k) / (c : ℝ) ∧ 1 - (∑ k, f k) / (c : ℝ) ≤ 2 := by
  rcases Nat.eq_zero_or_pos c with hc | hc
  · subst hc
    norm_num
  · have hcR : (0 : ℝ) < (c : ℝ) := by exact_mod_cast hc
    have habs : |∑ k, f k| ≤ (c : ℝ) := by
      calc |∑ k, f k| ≤ ∑ k, |f k| := Finset.abs_sum_le_sum_abs _ _
        _ ≤ ∑ _k : Fin c, (1 : ℝ) := Finset.sum_le_sum fun i _ => hf i
        _ = (c : ℝ) := by simp
    have hdiv : |(∑ k, f k) / (c : ℝ)| ≤ 1 := by
      rw [abs_div, abs_of_pos hcR, div_le_one hcR]
      exact habs
    have h' := abs_le.mp hdiv
    exact ⟨by linarith [h'.2], by linarith [h'.1]⟩

/-- C5: for every `[n,c,h,w]` feature map, `gram(x)` is the `[n·c, n·c]`
matrix (its type) equal entrywise to the product of the `[n·c, h·w]`
reshape of `x` with its transpose, divided by `n·c·h·w` (the code's
sequential `/n/c/h/w` equals the single division). -/
theorem gram_reshape_formula (n c h w : ℕ) (x : Tensor4 n c h w) (i j : Fin (n * c)) :
    gram x i j =
      (features x * Matrix.transpose (features x)) i j / ((n : ℝ) * c * h * w) := by
  simp [gram, div_div]

/-- C6: the Gram matrix is symmetric: `gram(x)` equals its transpose
(exactly, in the real-valued model). -/
theorem gram_symmetric (n c h w : ℕ) (x : Tensor4 n c h w) :
    gram x = Matrix.transpose (gram x) := by
  ext i j
  simp [gram, Matrix.transpose_apply, Matrix.mul_apply, mul_comm]

/-- C7: both probe variants return their input unchanged from
`forward`, and the only state field they change is their own `loss`:
the stored target is never modified. -/
theorem probe_forward_identity_and_frame (c h w : ℕ) (cl : ContentLoss c h w)
    (sl : StyleLoss c) (input : Tensor4 1 c h w) :
    (cl.forward input).1 = input ∧ (cl.forward input).2.target = cl.target ∧
    (sl.forward input).1 = input ∧ (sl.forward input).2.target = sl.target :=
  ⟨rfl, rfl, rfl, rfl⟩

/-- C4: on every forward call `ContentLoss` sets its loss to `1` minus
the mean over output channels of the per-channel cosine similarity
between input and target (channels flattened over the spatial
dimensions), and that value always lies in `[0, 2]`. -/
theorem contentLoss_forward_formula_and_range (c h w : ℕ) (cl : ContentLoss c h w)
    (input : Tensor4 1 c h w) :
    (cl.forward input).2.loss =
      some (1 - (∑ k : Fin c,
        cosineSimilarityRow (viewChannels input) (viewChannels cl.target) k) / (c : ℝ)) ∧
    0 ≤ 1 - (∑ k : Fin c,
        cosineSimilarityRow (viewChannels input) (viewChannels cl.target) k) / (c : ℝ) ∧
    1 - (∑ k : Fin c,
        cosineSimilarityRow (viewChannels input) (viewChannels cl.target) k) / (c : ℝ) ≤ 2 :=
  ⟨rfl,
   (one_sub_mean_bounds _ fun k => abs_cosineSimilarityRow_le_one _ _ k).1,
   (one_sub_mean_bounds _ fun k => abs_cosineSimilarityRow_le_one _ _ k).2⟩

/-- C3: for a probe whose stored target is non-degenerate (a positive
number of channels, no all-zero channel row — for `StyleLoss`, no
all-zero row of the stored Gram matrix), forwarding the target itself
sets the probe's loss to exactly `0`. -/
theorem probe_loss_zero_on_target (c h w : ℕ) (t : Tensor4 1 c h w) (hc : 0 < c)
    (hct : ∀ k : Fin c, Matrix.dotProduct (viewChannels t k) (viewChannels t k) ≠ 0)
    (hst : ∀ k : Fin c,
      Matrix.dotProduct (styleView (gram t) k) (styleView (gram t) k) ≠ 0) :
    ((ContentLoss.init t).forward t).2.loss = some 0 ∧
    ((StyleLoss.init t).forward t).2.loss = some 0 := by
  have hcR : ((c : ℝ)) ≠ 0 := Nat.cast_ne_zero.mpr (Nat.pos_iff_ne_zero.mp hc)
  constructor
  · simp only [ContentLoss.forward, ContentLoss.init, Option.some.injEq]
    rw [Finset.sum_congr rfl fun k _ => cosineSimilarityRow_self (viewChannels t) k (hct k)]
    simp [hcR]
  · simp only [StyleLoss.forward, StyleLoss.init, Option.some.injEq]
    rw [Finset.sum_congr rfl fun k _ =>
      cosineSimilarityRow_self (styleView (gram t)) k (hst k)]
    simp [hcR]

/-- C3 witness: a constant-one `[1,1,1,1]` tensor is non-degenerate,
and both probes built from it report loss exactly `0` on it. -/
theorem probe_loss_zero_on_target_witness :
    ((ContentLoss.init (fun _ _ _ _ => (1 : ℝ) : Tensor4 1 1 1 1)).forward
        (fun _ _ _ _ => (1 : ℝ))).2.loss = some 0 ∧
    ((StyleLoss.init (fun _ _ _ _ => (1 : ℝ) : Tensor4 1 1 1 1)).forward
        (fun _ _ _ _ => (1 : ℝ) : Tensor4 1 1 1 1)).2.loss = some 0 :=
  probe_loss_zero_on_target 1 1 1 (fun _ _ _ _ => (1 : ℝ)) Nat.one_pos
    (by
      intro k
      simp [viewChannels, Matrix.dotProduct])
    (by
      intro k
      simp [styleView, gram, features, Matrix.dotProduct, Matrix.mul_apply,
        Matrix.transpose_apply])

end StyleTransfer
